import Mathlib

/-!
Verification development for the ManusTradeAI agent coordination core
(`backend/ai_firm/agent_manager.py` and the override-review portion of
`backend/src/api/ai_firm_routes.py`).

Modelling conventions:
* Python floats are modelled as rationals (`ℚ`), so all arithmetic facts are exact.
* Python dicts (which preserve insertion order) are modelled as insertion-ordered
  association lists; `aupdate` is `d[k] = v` (in-place value update for an existing
  key, append for a new one) and `alookup` is `d.get(k)`.
* `datetime.now()` is modelled by an explicit `now : ℚ` argument; `uuid.uuid4()`
  and `random.uniform(0.05, 0.15)` are modelled by caller-supplied arguments.
* Python functions that can raise are embedded with `Except`; functions that
  cannot raise are embedded as total functions.
* Presentation-only payloads (free-text reasoning strings, supporting-data
  snapshots, ISO timestamps inside result dicts) are not modelled; no claim
  mentions them.
-/

namespace ManusTradeAI

/-- Lookup in an insertion-ordered association list, Python `d.get(k)`. -/
def alookup (k : String) : List (String × β) → Option β
  | [] => none
  | (k2, v) :: rest => if k2 = k then some v else alookup k rest

/-- Python `d[k] = v` on an insertion-ordered dict: replace the value in place if
the key exists, otherwise append the binding at the end. -/
def aupdate (k : String) (v : β) : List (String × β) → List (String × β)
  | [] => [(k, v)]
  | (k2, v2) :: rest => if k2 = k then (k2, v) :: rest else (k2, v2) :: aupdate k v rest

/-- Role of an agent, from `AgentRole` in agent_manager.py. -/
inductive AgentRole
  | director
  | senior
  | specialist
  | analyst
deriving DecidableEq, Repr

/-- Department of an agent, from `DepartmentType` in agent_manager.py. -/
inductive DepartmentType
  | market_intelligence
  | trade_operations
  | risk_control
  | performance_lab
  | communications
deriving DecidableEq, Repr

/-- The `Agent` dataclass. `created_at` is not modelled (no claim mentions it). -/
structure Agent where
  id : String
  name : String
  role : AgentRole
  department : DepartmentType
  personality_traits : List (String × ℚ)
  expertise_areas : List String
  confidence_level : ℚ
  learning_rate : ℚ
  vote_weight : ℚ
  performance_score : ℚ := 0.75
  active : Bool := true
deriving DecidableEq, Repr

/-- The `AgentDecision` dataclass. The `timestamp`, free-text `reasoning` and
`supporting_data` fields are presentation-only and not modelled. -/
structure AgentDecision where
  agent_id : String
  decision_type : String
  recommendation : String
  confidence : ℚ
  vote_weight : ℚ
deriving DecidableEq, Repr

/-- The voting-result dict built by `AgentManager._conduct_voting_session`.
The `session_timestamp` and random `session_id` entries are not modelled. -/
structure VotingSession where
  winning_recommendation : String
  consensus_strength : ℚ
  vote_distribution : List (String × ℚ)
  total_votes : Nat
  participating_agents : List String
deriving DecidableEq, Repr

/-- An outcome payload handed to `update_agent_performance` /
`record_agent_performance`: a dict that may or may not carry `score` and
`accuracy` keys (other keys are never read). -/
structure PerfData where
  score : Option ℚ := none
  accuracy : Option ℚ := none
deriving DecidableEq, Repr

/-- One record appended by `AgentPerformanceTracker.record_agent_performance`. -/
structure PerformanceRecord where
  timestamp : ℚ
  data : PerfData
deriving DecidableEq, Repr

/-- The decision context dict, restricted to the keys the embedded code reads. -/
structure Context where
  decision_type : Option String := none
  market_type : Option String := none
  volatility : Option ℚ := none
  pe_ratio : Option ℚ := none
  innovation_score : Option ℚ := none
  technical_score : Option ℚ := none
  risk_score : Option ℚ := none
deriving Repr

/-- Mutable state of an `AgentManager` together with its
`AgentPerformanceTracker` (whose two fields are inlined here):
`agents` (id to Agent), `agent_registry` (name to id), the appended
`voting_sessions`, and the tracker fields `performance_history` and
`coordination_sessions` (the latter reduced to the consensus strengths,
which is all any claim mentions). -/
structure ManagerState where
  agents : List (String × Agent) := []
  agent_registry : List (String × String) := []
  voting_sessions : List VotingSession := []
  performance_history : List (String × List PerformanceRecord) := []
  coordination_sessions : List ℚ := []

/-- Helper for Python string containment: does the second list start with the
first one? -/
def leadsWith : List Char → List Char → Bool
  | [], _ => true
  | _ :: _, [] => false
  | a :: as, b :: bs => a == b && leadsWith as bs

/-- Helper for Python string containment over character lists. -/
def containsSub (needle : List Char) : List Char → Bool
  | [] => needle.isEmpty
  | c :: rest => leadsWith needle (c :: rest) || containsSub needle rest

/-- Python `needle in hay` on strings (substring test). -/
def strIn (needle hay : String) : Bool :=
  containsSub needle.data hay.data

/-- Embeds `AgentManager._calculate_agent_confidence`. -/
def calculate_agent_confidence (agent : Agent) (context : Context) : ℚ :=
  let base0 := agent.confidence_level
  let context_type := context.market_type.getD "general"
  let expertise_match := agent.expertise_areas.any (fun exp => strIn exp context_type)
  let base1 := if expertise_match then base0 * 1.2 else base0
  let base2 :=
    match alookup "risk_aversion" agent.personality_traits with
    | some ra =>
        if context.volatility.getD 0.1 > 0.3 then base1 * (1 - ra * 0.2) else base1
    | none => base1
  min 1 (max 0.1 base2)

/-- Embeds `AgentManager._generate_agent_recommendation`. -/
def generate_agent_recommendation (agent : Agent) (context : Context) : String :=
  if agent.name = "Warren" then
    if context.pe_ratio.getD 20 < 15 then "CONSERVATIVE_BUY" else "HOLD"
  else if agent.name = "Cathie" then
    if context.innovation_score.getD 0.5 > 0.7 then "GROWTH_BUY" else "RESEARCH"
  else if agent.name = "Quant" then
    if context.technical_score.getD 0.5 > 0.6 then "SIGNAL_BUY" else "SIGNAL_SELL"
  else if agent.name = "Degen_Auditor" then
    if context.risk_score.getD 0.5 < 0.3 then "RISK_APPROVED" else "RISK_WARNING"
  else
    let confidence := calculate_agent_confidence agent context
    if confidence > 0.7 then "BUY"
    else if confidence > 0.4 then "HOLD"
    else "SELL"

/-- Embeds `AgentManager._get_agent_decision` (the modelled fields only). -/
def get_agent_decision (agent : Agent) (context : Context) : AgentDecision :=
  { agent_id := agent.id
    decision_type := context.decision_type.getD "trading"
    recommendation := generate_agent_recommendation agent context
    confidence := calculate_agent_confidence agent context
    vote_weight := agent.vote_weight }

/-- Weight contributed by one decision: `decision.vote_weight * decision.confidence`. -/
def decisionWeight (d : AgentDecision) : ℚ :=
  d.vote_weight * d.confidence

/-- One iteration of the tally loop in `_conduct_voting_session`: if the
recommendation is not yet a key, initialise it to 0, then add the weight.
On the insertion-ordered dict this replaces the value in place for an existing
key and appends a new key at the end. -/
def addVote (tally : List (String × ℚ)) (r : String) (w : ℚ) : List (String × ℚ) :=
  match tally with
  | [] => [(r, w)]
  | (k, v) :: rest => if k = r then (k, v + w) :: rest else (k, v) :: addVote rest r w

/-- The `vote_tally` dict after the collection loop of `_conduct_voting_session`. -/
def voteTally (decisions : List AgentDecision) : List (String × ℚ) :=
  decisions.foldl (fun t d => addVote t d.recommendation (decisionWeight d)) []

/-- The `total_weight` accumulator of `_conduct_voting_session` (summed in the
same loop; the sum is order-independent, so it is written as a list sum). -/
def totalWeight (decisions : List AgentDecision) : ℚ :=
  (decisions.map decisionWeight).sum

/-- Python `max(..., key=...)` scan: keep the current best unless a strictly
greater element appears, so the first of several maxima wins. -/
def maxFrom (best : String × ℚ) : List (String × ℚ) → String × ℚ
  | [] => best
  | q :: rest => maxFrom (if q.2 > best.2 then q else best) rest

/-- Python `max(vote_tally.items(), key=lambda x: x[1])`: raises `ValueError`
on an empty dict (modelled as `none`), otherwise scans left to right. -/
def pickWinner : List (String × ℚ) → Option (String × ℚ)
  | [] => none
  | p :: rest => some (maxFrom p rest)

/-- The ways `_conduct_voting_session` can raise: `max()` on an empty tally
raises `ValueError` (when `decisions` is empty), and building
`vote_distribution` divides each tally value by `total_weight`, which raises
`ZeroDivisionError` when the total weight is exactly zero. -/
inductive VoteError
  | emptyDecisions
  | zeroTotalWeight
deriving DecidableEq, Repr

/-- Embeds `AgentManager._conduct_voting_session` minus the final append to
`self.voting_sessions` (see `conduct_voting_session_st`). the `context`
argument of the source is unused by its body and therefore omitted. -/
def conduct_voting_session (decisions : List AgentDecision) : Except VoteError VotingSession :=
  let tally := voteTally decisions
  let total := totalWeight decisions
  match pickWinner tally with
  | none => .error .emptyDecisions
  | some w =>
    if total = 0 then .error .zeroTotalWeight
    else
      .ok { winning_recommendation := w.1
            consensus_strength := if total > 0 then w.2 / total else 0
            vote_distribution := tally.map (fun p => (p.1, p.2 / total))
            total_votes := decisions.length
            participating_agents := decisions.map (·.agent_id) }

/-- State-level `_conduct_voting_session`: on success the result dict is
appended to `self.voting_sessions`; on a raise nothing is appended. -/
def conduct_voting_session_st (st : ManagerState) (decisions : List AgentDecision) :
    Except VoteError (VotingSession × ManagerState) :=
  match conduct_voting_session decisions with
  | .error e => .error e
  | .ok s => .ok (s, { st with voting_sessions := st.voting_sessions ++ [s] })

/-- Embeds `AgentManager.coordinate_decision_making`: elicit one decision per
active agent in registry iteration order, run the voting session, then record
the coordination session in the performance tracker. An exception raised by
the voting session propagates before any recording happens. -/
def coordinate_decision_making (st : ManagerState) (context : Context) :
    Except VoteError (VotingSession × ManagerState) :=
  let agent_decisions :=
    (st.agents.filter (fun p => p.2.active)).map (fun p => get_agent_decision p.2 context)
  match conduct_voting_session_st st agent_decisions with
  | .error e => .error e
  | .ok (s, st1) =>
      .ok (s, { st1 with coordination_sessions := st1.coordination_sessions ++ [s.consensus_strength] })

/-- The role-to-weight table of `AgentManager._create_agent`. -/
def vote_weights : AgentRole → ℚ
  | .director => 1.0
  | .senior => 0.8
  | .specialist => 0.6
  | .analyst => 0.4

/-- Embeds `AgentManager._create_agent`. `uuid.uuid4()` is modelled by the
caller-supplied `agent_id` and `random.uniform(0.05, 0.15)` by the
caller-supplied `learning_rate`. The source performs two dict assignments,
`agents[agent_id] = agent` and `agent_registry[name] = agent_id`, with no
duplicate check of any kind. -/
def create_agent (st : ManagerState) (agent_id : String) (name : String) (role : AgentRole)
    (department : DepartmentType) (personality : List (String × ℚ)) (expertise : List String)
    (base_confidence : ℚ) (learning_rate : ℚ) : ManagerState × Agent :=
  let agent : Agent :=
    { id := agent_id
      name := name
      role := role
      department := department
      personality_traits := personality
      expertise_areas := expertise
      confidence_level := base_confidence
      learning_rate := learning_rate
      vote_weight := vote_weights role }
  ({ st with
      agents := aupdate agent_id agent st.agents
      agent_registry := aupdate name agent_id st.agent_registry },
   agent)

/-- Agent-level part of `AgentManager.update_agent_performance`: the EMA update
of `performance_score` followed by the accuracy-driven adjustment of
`confidence_level`. Missing dict keys use the same defaults as the source
(`performance_data.get`). -/
def update_agent (agent : Agent) (performance_data : PerfData) : Agent :=
  let new_score := performance_data.score.getD agent.performance_score
  let perf := agent.performance_score * (1 - agent.learning_rate) + new_score * agent.learning_rate
  let acc := performance_data.accuracy.getD 0.5
  let conf :=
    if acc > 0.8 then min 1 (agent.confidence_level * 1.05)
    else if acc < 0.3 then max 0.1 (agent.confidence_level * 0.95)
    else agent.confidence_level
  { agent with performance_score := perf, confidence_level := conf }

/-- Embeds `AgentPerformanceTracker.record_agent_performance`: initialise the
history list for an unseen agent id, then append a timestamped record. -/
def record_agent_performance (hist : List (String × List PerformanceRecord))
    (agent_id : String) (performance_data : PerfData) (now : ℚ) :
    List (String × List PerformanceRecord) :=
  aupdate agent_id ((alookup agent_id hist).getD [] ++ [⟨now, performance_data⟩]) hist

/-- Embeds `AgentManager.update_agent_performance`: a no-op for an unknown
agent id, otherwise update the agent in place and record the payload in the
performance tracker. -/
def update_agent_performance (st : ManagerState) (agent_id : String)
    (performance_data : PerfData) (now : ℚ) : ManagerState :=
  match alookup agent_id st.agents with
  | none => st
  | some agent =>
      { st with
          agents := aupdate agent_id (update_agent agent performance_data) st.agents
          performance_history :=
            record_agent_performance st.performance_history agent_id performance_data now }

/-- Result of `AgentPerformanceTracker.get_agent_performance`: either the
zero-valued dict `\x7b'performance_records': 0, 'average_score': 0\x7d` or the
full summary dict. -/
inductive PerfSummary
  | noRecords
  | summary (performance_records : Nat) (average_score : ℚ) (latest_score : ℚ) (trend : String)
deriving DecidableEq, Repr

/-- Embeds `AgentPerformanceTracker.get_agent_performance`. The function is
total: an unknown agent id takes the same zero-summary branch as a known agent
with no records, and nothing is ever raised. -/
def get_agent_performance (hist : List (String × List PerformanceRecord))
    (agent_id : String) (now : ℚ) (days : ℚ) : PerfSummary :=
  match alookup agent_id hist with
  | none => .noRecords
  | some records =>
      let cutoff := now - days
      let recent := records.filter (fun r => r.timestamp > cutoff)
      if recent.isEmpty then .noRecords
      else
        let scores := recent.map (fun r => r.data.score.getD 0.5)
        .summary recent.length (scores.sum / (scores.length : ℚ)) (scores.getLastD 0)
          (if 1 < scores.length ∧ scores.headD 0 < scores.getLastD 0 then "improving"
           else "stable")

/-- Modelled from the spec: the strategic decision returned by
`AutonomousCEO.make_strategic_decision` (the file `ai_firm/ceo.py` is imported
by `ai_firm_routes.py` but is absent from the sources). The spec describes the
value the route consumes as "an independently computed strategic-confidence
value (a function of policyContext such as trend direction and volatility)",
so the CEO decision is modelled by that confidence value alone, supplied by an
arbitrary such function. -/
structure CEODecision where
  confidence : ℚ
deriving DecidableEq, Repr

/-- Final-decision portion of the response built by the `coordinate_decision`
route handler in `ai_firm_routes.py` (the JSON echo of the coordination result
and the presentation fields are not modelled). -/
structure RouteResult where
  final_recommendation : String
  execution_approved : Bool
deriving DecidableEq, Repr

/-- Embeds the decision portion of the `/coordinate-decision` route handler:
`final_recommendation` is always the winning recommendation of the
coordination result, and `execution_approved` is
`ceo_decision.confidence > 0.6`. -/
def coordinate_decision_route (coordination_result : VotingSession)
    (ceo_decision : CEODecision) : RouteResult :=
  { final_recommendation := coordination_result.winning_recommendation
    execution_approved := if ceo_decision.confidence > 0.6 then true else false }

/-! Specification-side definitions, written from the words of the spec, used to
state the claims about the voting tally without restating the embedded code. -/

/-- Helper for `firstSeen`; `seen` accumulates the keys already emitted. -/
def firstSeenAux (seen : List String) : List String → List String
  | [] => []
  | x :: xs => if x ∈ seen then firstSeenAux seen xs else x :: firstSeenAux (x :: seen) xs

/-- Distinct elements of a list in order of first occurrence, the insertion
order the spec promises for the tally keys. -/
def firstSeen (l : List String) : List String :=
  firstSeenAux [] l

/-- Total weight accumulated for one recommendation string, the way the spec
words it: the sum of `vote_weight * confidence` over the decisions carrying
that recommendation. -/
def sumWeightsFor (ds : List AgentDecision) (r : String) : ℚ :=
  ((ds.filter (fun d => d.recommendation = r)).map decisionWeight).sum

/-! Association-list lemmas. -/

theorem alookup_aupdate_self (k : String) (v : β) (t : List (String × β)) :
    alookup k (aupdate k v t) = some v := by
  induction t with
  | nil => simp [alookup, aupdate]
  | cons p rest ih =>
    by_cases h : p.1 = k
    · simp [aupdate, alookup, h]
    · simp [aupdate, alookup, h, ih]

theorem alookup_aupdate_ne (k k2 : String) (v : β) (t : List (String × β))
    (h : k2 ≠ k) : alookup k2 (aupdate k v t) = alookup k2 t := by
  have hk : ¬ k = k2 := fun h2 => h h2.symm
  induction t with
  | nil => simp [alookup, aupdate, hk]
  | cons p rest ih =>
    rcases p with ⟨pk, pv⟩
    by_cases hp : pk = k
    · subst hp
      simp [aupdate, alookup, hk]
    · by_cases hp2 : pk = k2
      · simp [aupdate, alookup, hp, hp2, h]
      · simp [aupdate, alookup, hp, hp2, ih]

/-! Lemmas about `firstSeen`. -/

theorem mem_firstSeenAux (y : String) (seen l : List String) :
    y ∈ firstSeenAux seen l ↔ y ∉ seen ∧ y ∈ l := by
  induction l generalizing seen with
  | nil => simp [firstSeenAux]
  | cons x xs ih =>
    by_cases hx : x ∈ seen
    · rw [show firstSeenAux seen (x :: xs) = firstSeenAux seen xs by
        simp [firstSeenAux, hx]]
      rw [ih]
      constructor
      · rintro ⟨h1, h2⟩; exact ⟨h1, List.mem_cons_of_mem x h2⟩
      · rintro ⟨h1, h2⟩
        rcases List.mem_cons.mp h2 with rfl | h3
        · exact absurd hx h1
        · exact ⟨h1, h3⟩
    · rw [show firstSeenAux seen (x :: xs) = x :: firstSeenAux (x :: seen) xs by
        simp [firstSeenAux, hx]]
      rw [List.mem_cons, ih]
      constructor
      · rintro (rfl | ⟨h1, h2⟩)
        · exact ⟨hx, List.mem_cons_self _ _⟩
        · exact ⟨fun hs => h1 (List.mem_cons_of_mem x hs), List.mem_cons_of_mem x h2⟩
      · rintro ⟨h1, h2⟩
        rcases List.mem_cons.mp h2 with rfl | h3
        · exact Or.inl rfl
        · by_cases hxy : y = x
          · exact Or.inl hxy
          · exact Or.inr ⟨fun hs => (List.mem_cons.mp hs).elim hxy h1, h3⟩

theorem mem_firstSeen (y : String) (l : List String) :
    y ∈ firstSeen l ↔ y ∈ l := by
  rw [firstSeen, mem_firstSeenAux]
  simp

theorem nodup_firstSeenAux (seen l : List String) : (firstSeenAux seen l).Nodup := by
  induction l generalizing seen with
  | nil => simp [firstSeenAux]
  | cons x xs ih =>
    by_cases hx : x ∈ seen
    · rw [firstSeenAux, if_pos hx]; exact ih seen
    · rw [firstSeenAux, if_neg hx]
      refine List.nodup_cons.mpr ⟨fun hmem => ?_, ih _⟩
      exact ((mem_firstSeenAux _ _ _).mp hmem).1 (List.mem_cons_self _ _)

theorem nodup_firstSeen (l : List String) : (firstSeen l).Nodup :=
  nodup_firstSeenAux [] l

theorem firstSeenAux_append_single (seen l : List String) (x : String) :
    firstSeenAux seen (l ++ [x]) =
      firstSeenAux seen l ++ (if x ∈ seen ∨ x ∈ l then [] else [x]) := by
  induction l generalizing seen with
  | nil => simp [firstSeenAux]
  | cons y ys ih =>
    by_cases hy : y ∈ seen
    · rw [List.cons_append, firstSeenAux, if_pos hy, ih, firstSeenAux, if_pos hy]
      congr 1
      refine if_congr ?_ rfl rfl
      simp only [List.mem_cons]
      constructor
      · rintro (h | h)
        · exact Or.inl h
        · exact Or.inr (Or.inr h)
      · rintro (h | rfl | h)
        · exact Or.inl h
        · exact Or.inl hy
        · exact Or.inr h
    · rw [List.cons_append, firstSeenAux, if_neg hy, ih, firstSeenAux, if_neg hy,
        List.cons_append]
      congr 2
      refine if_congr ?_ rfl rfl
      simp only [List.mem_cons]
      tauto

theorem firstSeen_append_single (l : List String) (x : String) :
    firstSeen (l ++ [x]) = firstSeen l ++ (if x ∈ l then [] else [x]) := by
  rw [firstSeen, firstSeenAux_append_single, firstSeen]
  congr 1
  refine if_congr ?_ rfl rfl
  simp

/-! Lemmas about `addVote` and the tally. -/

theorem addVote_keys (t : List (String × ℚ)) (r : String) (w : ℚ) :
    (addVote t r w).map Prod.fst =
      if r ∈ t.map Prod.fst then t.map Prod.fst else t.map Prod.fst ++ [r] := by
  induction t with
  | nil => simp [addVote]
  | cons p rest ih =>
    rcases p with ⟨k, v⟩
    by_cases hp : k = r
    · subst hp
      simp [addVote]
    · have hr : ¬ r = k := fun h => hp h.symm
      simp only [addVote, if_neg hp, List.map_cons, ih, List.mem_cons]
      by_cases hmem : r ∈ rest.map Prod.fst
      · simp [hmem, hr]
      · simp [hmem, hr]

theorem addVote_not_mem (t : List (String × ℚ)) (r : String) (w : ℚ)
    (h : r ∉ t.map Prod.fst) : addVote t r w = t ++ [(r, w)] := by
  induction t with
  | nil => simp [addVote]
  | cons p rest ih =>
    rcases p with ⟨k, v⟩
    have hk : ¬ k = r := fun he => h (by simp [he])
    have h2 : r ∉ rest.map Prod.fst := fun hm => h (by simp [hm])
    simp only [addVote, if_neg hk, List.cons_append]
    rw [ih h2]

theorem addVote_map_sum (keys : List String) (f : String → ℚ) (r : String) (w : ℚ)
    (hnd : keys.Nodup) (hr : r ∈ keys) :
    addVote (keys.map fun k => (k, f k)) r w =
      keys.map fun k => (k, f k + if k = r then w else 0) := by
  induction keys with
  | nil => cases hr
  | cons k rest ih =>
    rcases List.nodup_cons.mp hnd with ⟨hk, hnd2⟩
    by_cases hkr : k = r
    · subst hkr
      simp only [List.map_cons, addVote, if_pos rfl]
      simp only [if_true]
      congr 1
      apply List.map_congr_left
      intro x hx
      have hxk : ¬ x = k := fun he => hk (he ▸ hx)
      simp [hxk]
    · simp only [List.map_cons, addVote, if_neg hkr]
      have hr2 : r ∈ rest := (List.mem_cons.mp hr).resolve_left (fun he => hkr he.symm)
      rw [ih hnd2 hr2]
      simp [hkr]

theorem voteTally_append_single (ds : List AgentDecision) (d : AgentDecision) :
    voteTally (ds ++ [d]) = addVote (voteTally ds) d.recommendation (decisionWeight d) := by
  simp [voteTally, List.foldl_append]

theorem sumWeightsFor_append_single (ds : List AgentDecision) (d : AgentDecision) (r : String) :
    sumWeightsFor (ds ++ [d]) r =
      sumWeightsFor ds r + if d.recommendation = r then decisionWeight d else 0 := by
  by_cases h : d.recommendation = r
  · simp [sumWeightsFor, List.filter_append, h]
  · simp [sumWeightsFor, List.filter_append, h]

theorem sumWeightsFor_eq_zero (ds : List AgentDecision) (r : String)
    (h : r ∉ ds.map AgentDecision.recommendation) : sumWeightsFor ds r = 0 := by
  have hf : ds.filter (fun d => d.recommendation = r) = [] := by
    apply List.filter_eq_nil_iff.mpr
    intro d hd
    simp only [decide_eq_true_eq]
    intro he
    exact h (by rw [← he]; exact List.mem_map_of_mem _ hd)
  simp [sumWeightsFor, hf]

/-- The tally built by the collection loop equals the spec-side description:
the distinct recommendation strings in first-seen order, each paired with the
sum of `vote_weight * confidence` over its decisions. -/
theorem voteTally_eq (ds : List AgentDecision) :
    voteTally ds =
      (firstSeen (ds.map AgentDecision.recommendation)).map
        (fun r => (r, sumWeightsFor ds r)) := by
  induction ds using List.reverseRecOn with
  | nil => simp [voteTally, firstSeen, firstSeenAux]
  | append_singleton ds d ih =>
    rw [voteTally_append_single, ih, List.map_append]
    have hone : List.map AgentDecision.recommendation [d] = [d.recommendation] := rfl
    rw [hone, firstSeen_append_single]
    by_cases hmem : d.recommendation ∈ ds.map AgentDecision.recommendation
    · rw [if_pos hmem, List.append_nil]
      rw [addVote_map_sum _ _ _ _ (nodup_firstSeen _) ((mem_firstSeen _ _).mpr hmem)]
      apply List.map_congr_left
      intro r hr
      rw [sumWeightsFor_append_single]
      refine congrArg (fun q => (r, q)) ?_
      refine congrArg (fun q => sumWeightsFor ds r + q) ?_
      exact if_congr eq_comm rfl rfl
    · rw [if_neg hmem]
      have hkeys : d.recommendation ∉
          ((firstSeen (ds.map AgentDecision.recommendation)).map
            (fun r => (r, sumWeightsFor ds r))).map Prod.fst := by
        simp only [List.map_map]
        intro hc
        have : d.recommendation ∈ firstSeen (ds.map AgentDecision.recommendation) := by
          simpa using hc
        exact hmem ((mem_firstSeen _ _).mp this)
      rw [addVote_not_mem _ _ _ hkeys, List.map_append]
      congr 1
      · apply List.map_congr_left
        intro r hr
        have hrl : r ∈ ds.map AgentDecision.recommendation := (mem_firstSeen _ _).mp hr
        have hne : ¬ d.recommendation = r := fun he => hmem (he ▸ hrl)
        rw [sumWeightsFor_append_single, if_neg hne, add_zero]
      · have : sumWeightsFor (ds ++ [d]) d.recommendation = decisionWeight d := by
          rw [sumWeightsFor_append_single, if_pos rfl, sumWeightsFor_eq_zero _ _ hmem,
            zero_add]
        simp [this]

theorem voteTally_eq_nil_iff (ds : List AgentDecision) : voteTally ds = [] ↔ ds = [] := by
  constructor
  · intro h
    cases ds with
    | nil => rfl
    | cons d rest =>
      rw [voteTally_eq] at h
      simp [firstSeen, firstSeenAux] at h
  · rintro rfl
    rfl

/-! Lemmas about the winner scan. -/

theorem maxFrom_spec (l : List (String × ℚ)) (b : String × ℚ) :
    (∀ p ∈ l, p.2 ≤ (maxFrom b l).2) ∧ b.2 ≤ (maxFrom b l).2 ∧
      (maxFrom b l = b ∨
        ∃ pre post, l = pre ++ maxFrom b l :: post ∧ b.2 < (maxFrom b l).2 ∧
          ∀ p ∈ pre, p.2 < (maxFrom b l).2) := by
  induction l generalizing b with
  | nil => exact ⟨by simp, le_refl _, Or.inl rfl⟩
  | cons q rest ih =>
    by_cases hq : q.2 > b.2
    · have hm : maxFrom b (q :: rest) = maxFrom q rest := by simp [maxFrom, hq]
      rcases ih q with ⟨h1, h2, h3⟩
      rw [hm]
      refine ⟨?_, le_trans (le_of_lt hq) h2, ?_⟩
      · intro p hp
        rcases List.mem_cons.mp hp with rfl | hp2
        · exact h2
        · exact h1 p hp2
      · rcases h3 with he | ⟨pre, post, hdec, hlt, hpre⟩
        · refine Or.inr ⟨[], rest, ?_, ?_, by simp⟩
          · simp [he]
          · rw [he]; exact hq
        · refine Or.inr ⟨q :: pre, post, by rw [List.cons_append, ← hdec],
            lt_trans hq hlt, ?_⟩
          intro p hp
          rcases List.mem_cons.mp hp with rfl | hp2
          · exact hlt
          · exact hpre p hp2
    · have hm : maxFrom b (q :: rest) = maxFrom b rest := by simp [maxFrom, hq]
      rcases ih b with ⟨h1, h2, h3⟩
      rw [hm]
      refine ⟨?_, h2, ?_⟩
      · intro p hp
        rcases List.mem_cons.mp hp with rfl | hp2
        · exact le_trans (not_lt.mp hq) h2
        · exact h1 p hp2
      · rcases h3 with he | ⟨pre, post, hdec, hlt, hpre⟩
        · exact Or.inl he
        · refine Or.inr ⟨q :: pre, post, by rw [List.cons_append, ← hdec], hlt, ?_⟩
          intro p hp
          rcases List.mem_cons.mp hp with rfl | hp2
          · exact lt_of_le_of_lt (not_lt.mp hq) hlt
          · exact hpre p hp2

/-- Python `max` with a key picks a maximal element, and among equal maxima the
one encountered first: everything strictly before the returned element in the
list is strictly smaller. -/
theorem pickWinner_spec (t : List (String × ℚ)) (w : String × ℚ)
    (h : pickWinner t = some w) :
    ∃ pre post, t = pre ++ w :: post ∧ (∀ p ∈ pre, p.2 < w.2) ∧
      ∀ p ∈ t, p.2 ≤ w.2 := by
  cases t with
  | nil => cases h
  | cons p rest =>
    have hw : maxFrom p rest = w := by
      simpa [pickWinner] using h
    rcases maxFrom_spec rest p with ⟨h1, h2, h3⟩
    rw [hw] at h1 h2 h3
    rcases h3 with he | ⟨pre, post, hdec, hlt, hpre⟩
    · refine ⟨[], rest, by simp [he], by simp, ?_⟩
      intro p2 hp2
      rcases List.mem_cons.mp hp2 with rfl | hp3
      · exact h2
      · exact h1 p2 hp3
    · refine ⟨p :: pre, post, by rw [List.cons_append, ← hdec], ?_, ?_⟩
      · intro p2 hp2
        rcases List.mem_cons.mp hp2 with rfl | hp3
        · exact hlt
        · exact hpre p2 hp3
      · intro p2 hp2
        rcases List.mem_cons.mp hp2 with rfl | hp3
        · exact le_of_lt hlt
        · exact h1 p2 hp3

/-- The three-decision scenario of the spec: vote weights 1.0/0.8/0.6,
confidences 0.9/0.5/0.5, recommendations BUY/BUY/SELL. -/
def scenarioDecisions : List AgentDecision :=
  [ { agent_id := "warren", decision_type := "trading", recommendation := "BUY",
      confidence := 9/10, vote_weight := 1 },
    { agent_id := "cathie", decision_type := "trading", recommendation := "BUY",
      confidence := 1/2, vote_weight := 4/5 },
    { agent_id := "quant", decision_type := "trading", recommendation := "SELL",
      confidence := 1/2, vote_weight := 3/5 } ]

/-- C1: for every non-empty list of Decisions (with positive total weight, the
regime the claim describes), the voting session succeeds; the tally pairs the
distinct recommendation strings, in first-seen insertion order, with the sums
of `vote_weight * confidence`; the winner is a maximal-weight entry of the
tally and every entry strictly before it is strictly smaller (so an exact tie
goes to the recommendation seen earliest); and consensus strength is the
winning weight divided by the total weight. In particular the 1.0/0.8/0.6 and
0.9/0.5/0.5 BUY/BUY/SELL scenario yields winner "BUY" with consensus 13/16. -/
theorem voting_tally_winner_consensus :
    (∀ ds : List AgentDecision, ds ≠ [] → 0 < totalWeight ds →
      ∃ s, conduct_voting_session ds = .ok s ∧
        voteTally ds =
          (firstSeen (ds.map AgentDecision.recommendation)).map
            (fun r => (r, sumWeightsFor ds r)) ∧
        (∃ pre post,
          voteTally ds =
            pre ++ (s.winning_recommendation,
              sumWeightsFor ds s.winning_recommendation) :: post ∧
          (∀ p ∈ pre, p.2 < sumWeightsFor ds s.winning_recommendation) ∧
          (∀ p ∈ voteTally ds, p.2 ≤ sumWeightsFor ds s.winning_recommendation)) ∧
        s.consensus_strength =
          sumWeightsFor ds s.winning_recommendation / totalWeight ds) ∧
    (∃ s, conduct_voting_session scenarioDecisions = .ok s ∧
      s.winning_recommendation = "BUY" ∧ s.consensus_strength = 13/16) := by
  constructor
  · intro ds hne hpos
    have htne : voteTally ds ≠ [] := fun h => hne ((voteTally_eq_nil_iff ds).mp h)
    obtain ⟨wv, hpick⟩ : ∃ wv, pickWinner (voteTally ds) = some wv := by
      cases h : voteTally ds with
      | nil => exact absurd h htne
      | cons a b => exact ⟨maxFrom a b, rfl⟩
    have htot : ¬ totalWeight ds = 0 := ne_of_gt hpos
    have hok : conduct_voting_session ds = .ok
        { winning_recommendation := wv.1
          consensus_strength := if totalWeight ds > 0 then wv.2 / totalWeight ds else 0
          vote_distribution := (voteTally ds).map (fun p => (p.1, p.2 / totalWeight ds))
          total_votes := ds.length
          participating_agents := ds.map (·.agent_id) } := by
      simp [conduct_voting_session, hpick, htot]
    obtain ⟨pre, post, hdec, hpre, hall⟩ := pickWinner_spec _ _ hpick
    have hmem : wv ∈ voteTally ds := by
      rw [hdec]; exact List.mem_append_right _ (List.mem_cons_self _ _)
    have hv : wv.2 = sumWeightsFor ds wv.1 := by
      rw [voteTally_eq ds] at hmem
      obtain ⟨r, hr, he⟩ := List.mem_map.mp hmem
      cases he
      rfl
    refine ⟨_, hok, voteTally_eq ds, ⟨pre, post, ?_, ?_, ?_⟩, ?_⟩
    · dsimp only
      rw [← hv]
      exact hdec
    · dsimp only
      rw [← hv]
      exact hpre
    · dsimp only
      rw [← hv]
      exact hall
    · dsimp only
      rw [if_pos hpos, hv]
  · have h1 : voteTally scenarioDecisions = [("BUY", 13/10), ("SELL", 3/10)] := by
      simp [voteTally, scenarioDecisions, addVote, decisionWeight]
      norm_num
    have h2 : totalWeight scenarioDecisions = 8/5 := by
      norm_num [totalWeight, scenarioDecisions, decisionWeight]
    refine ⟨{ winning_recommendation := "BUY"
              consensus_strength := 13/16
              vote_distribution := [("BUY", 13/16), ("SELL", 3/16)]
              total_votes := 3
              participating_agents := ["warren", "cathie", "quant"] }, ?_, rfl, rfl⟩
    simp only [conduct_voting_session, h1, h2]
    norm_num [pickWinner, maxFrom]
    simp [scenarioDecisions]

/-- Witness for C1: the hypotheses hold at the concrete scenario and the
theorem applies there. -/
theorem voting_tally_winner_consensus_witness :
    scenarioDecisions ≠ [] ∧ 0 < totalWeight scenarioDecisions ∧
    (∃ s, conduct_voting_session scenarioDecisions = .ok s ∧
      voteTally scenarioDecisions =
        (firstSeen (scenarioDecisions.map AgentDecision.recommendation)).map
          (fun r => (r, sumWeightsFor scenarioDecisions r)) ∧
      (∃ pre post,
        voteTally scenarioDecisions =
          pre ++ (s.winning_recommendation,
            sumWeightsFor scenarioDecisions s.winning_recommendation) :: post ∧
        (∀ p ∈ pre, p.2 < sumWeightsFor scenarioDecisions s.winning_recommendation) ∧
        (∀ p ∈ voteTally scenarioDecisions,
          p.2 ≤ sumWeightsFor scenarioDecisions s.winning_recommendation)) ∧
      s.consensus_strength =
        sumWeightsFor scenarioDecisions s.winning_recommendation /
          totalWeight scenarioDecisions) :=
  ⟨by simp [scenarioDecisions], by norm_num [totalWeight, scenarioDecisions, decisionWeight],
    voting_tally_winner_consensus.1 scenarioDecisions (by simp [scenarioDecisions])
      (by norm_num [totalWeight, scenarioDecisions, decisionWeight])⟩

/-! Helper lemmas for the failure analysis of the voting session. -/

theorem pickWinner_of_ne_nil (ds : List AgentDecision) (hne : ds ≠ []) :
    ∃ wv, pickWinner (voteTally ds) = some wv := by
  have htne : voteTally ds ≠ [] := fun h => hne ((voteTally_eq_nil_iff ds).mp h)
  cases h : voteTally ds with
  | nil => exact absurd h htne
  | cons a b => exact ⟨maxFrom a b, rfl⟩

theorem conduct_voting_session_ok (ds : List AgentDecision) (wv : String × ℚ)
    (hpick : pickWinner (voteTally ds) = some wv) (htot : ¬ totalWeight ds = 0) :
    conduct_voting_session ds = .ok
      { winning_recommendation := wv.1
        consensus_strength := if totalWeight ds > 0 then wv.2 / totalWeight ds else 0
        vote_distribution := (voteTally ds).map (fun p => (p.1, p.2 / totalWeight ds))
        total_votes := ds.length
        participating_agents := ds.map (·.agent_id) } := by
  simp [conduct_voting_session, hpick, htot]

theorem conduct_voting_session_zero_div (ds : List AgentDecision) (wv : String × ℚ)
    (hpick : pickWinner (voteTally ds) = some wv) (htot : totalWeight ds = 0) :
    conduct_voting_session ds = .error .zeroTotalWeight := by
  simp [conduct_voting_session, hpick, htot]

/-- C2: the voting session fails with the empty-decision-set error exactly when
the decision list is empty; every non-empty list of decisions whose confidences
are at least the minimum 0.1 (and whose captured vote weights are positive, as
all role weights are) yields a session; and a manager with zero active agents
fails coordination with that same error. -/
theorem voting_fails_iff_no_participants :
    (∀ ds : List AgentDecision,
      conduct_voting_session ds = .error VoteError.emptyDecisions ↔ ds = []) ∧
    (∀ ds : List AgentDecision, ds ≠ [] →
      (∀ d ∈ ds, 1/10 ≤ d.confidence ∧ 0 < d.vote_weight) →
      ∃ s, conduct_voting_session ds = .ok s) ∧
    (∀ (st : ManagerState) (context : Context),
      (∀ p ∈ st.agents, p.2.active = false) →
      coordinate_decision_making st context = .error VoteError.emptyDecisions) := by
  refine ⟨?_, ?_, ?_⟩
  · intro ds
    constructor
    · intro h
      by_contra hne
      obtain ⟨wv, hpick⟩ := pickWinner_of_ne_nil ds hne
      by_cases htot : totalWeight ds = 0
      · rw [conduct_voting_session_zero_div ds wv hpick htot] at h
        simp at h
      · rw [conduct_voting_session_ok ds wv hpick htot] at h
        simp at h
    · rintro rfl
      rfl
  · intro ds hne hd
    obtain ⟨wv, hpick⟩ := pickWinner_of_ne_nil ds hne
    have hpos : 0 < totalWeight ds := by
      apply List.sum_pos
      · intro x hx
        obtain ⟨d, hdm, rfl⟩ := List.mem_map.mp hx
        have h1 := (hd d hdm).1
        have h2 := (hd d hdm).2
        have hc : (0 : ℚ) < d.confidence := lt_of_lt_of_le (by norm_num) h1
        exact mul_pos h2 hc
      · intro hmap
        exact hne (List.map_eq_nil_iff.mp hmap)
    exact ⟨_, conduct_voting_session_ok ds wv hpick (ne_of_gt hpos)⟩
  · intro st context hina
    have hfil : st.agents.filter (fun p => p.2.active) = [] := by
      apply List.filter_eq_nil_iff.mpr
      intro p hp
      simp [hina p hp]
    simp [coordinate_decision_making, hfil, conduct_voting_session_st,
      conduct_voting_session, voteTally, pickWinner]

/-- Witness for C2: the empty list fails, the concrete scenario with all
confidences at least 0.1 succeeds, and an agentless manager fails to
coordinate. -/
theorem voting_fails_iff_no_participants_witness :
    (conduct_voting_session [] = .error VoteError.emptyDecisions ↔
      ([] : List AgentDecision) = []) ∧
    (∃ s, conduct_voting_session scenarioDecisions = .ok s) ∧
    coordinate_decision_making {} {} = .error VoteError.emptyDecisions :=
  ⟨voting_fails_iff_no_participants.1 [],
   voting_fails_iff_no_participants.2.1 scenarioDecisions (by simp [scenarioDecisions])
     (by
       intro d hd
       simp only [scenarioDecisions, List.mem_cons, List.not_mem_nil, or_false] at hd
       rcases hd with rfl | rfl | rfl <;> norm_num),
   voting_fails_iff_no_participants.2.2 {} {} (by simp)⟩

/-- Concrete agent used to instantiate theorems: all numeric fields inside the
documented ranges (learning rate drawn from [0.05, 0.15] in the source). -/
def witnessAgent : Agent :=
  { id := "wa1"
    name := "Witness"
    role := .senior
    department := .risk_control
    personality_traits := [("risk_aversion", 4/5)]
    expertise_areas := ["risk_assessment"]
    confidence_level := 4/5
    learning_rate := 1/10
    vote_weight := 4/5
    performance_score := 3/4
    active := true }

/-- Concrete manager state holding just `witnessAgent`. -/
def witnessState : ManagerState :=
  { agents := [("wa1", witnessAgent)]
    agent_registry := [("Witness", "wa1")] }

/-- C3: for a registered agent and a payload carrying a score, the new
performance score is the exponential moving average
`old * (1 - learning_rate) + score * learning_rate`, and a score equal to the
current performance score leaves the performance score exactly unchanged. -/
theorem ema_performance_update (st : ManagerState) (agent_id : String) (a : Agent)
    (pd : PerfData) (s : ℚ) (now : ℚ)
    (ha : alookup agent_id st.agents = some a) (hs : pd.score = some s) :
    ∃ a2, alookup agent_id (update_agent_performance st agent_id pd now).agents = some a2 ∧
      a2.performance_score =
        a.performance_score * (1 - a.learning_rate) + s * a.learning_rate ∧
      (s = a.performance_score → a2.performance_score = a.performance_score) := by
  refine ⟨update_agent a pd, ?_, ?_, ?_⟩
  · simp [update_agent_performance, ha, alookup_aupdate_self]
  · simp [update_agent, hs]
  · intro he
    simp only [update_agent, hs, Option.getD_some]
    rw [he]
    ring

/-- Witness for C3: the EMA theorem applied to the concrete witness agent with
score 1/2. -/
theorem ema_performance_update_witness :
    alookup "wa1" witnessState.agents = some witnessAgent ∧
    (({ score := some (1/2), accuracy := none } : PerfData).score = some (1/2)) ∧
    (∃ a2, alookup "wa1"
        (update_agent_performance witnessState "wa1"
          { score := some (1/2), accuracy := none } 0).agents = some a2 ∧
      a2.performance_score =
        witnessAgent.performance_score * (1 - witnessAgent.learning_rate) +
          (1/2) * witnessAgent.learning_rate ∧
      ((1/2 : ℚ) = witnessAgent.performance_score →
        a2.performance_score = witnessAgent.performance_score)) :=
  ⟨by simp [witnessState, alookup], rfl,
   ema_performance_update witnessState "wa1" witnessAgent
     { score := some (1/2), accuracy := none } (1/2) 0
     (by simp [witnessState, alookup]) rfl⟩

/-- C10: for a registered agent, a payload without a score key leaves the
performance score exactly unchanged, a payload without an accuracy key leaves
the confidence level unchanged, and in every case a timestamped performance
record is appended to that agent's history. -/
theorem missing_payload_keys_defaults (st : ManagerState) (agent_id : String) (a : Agent)
    (pd : PerfData) (now : ℚ) (ha : alookup agent_id st.agents = some a) :
    (pd.score = none →
      ∃ a2, alookup agent_id (update_agent_performance st agent_id pd now).agents = some a2 ∧
        a2.performance_score = a.performance_score) ∧
    (pd.accuracy = none →
      ∃ a2, alookup agent_id (update_agent_performance st agent_id pd now).agents = some a2 ∧
        a2.confidence_level = a.confidence_level) ∧
    alookup agent_id (update_agent_performance st agent_id pd now).performance_history =
      some ((alookup agent_id st.performance_history).getD [] ++ [⟨now, pd⟩]) := by
  refine ⟨?_, ?_, ?_⟩
  · intro hsc
    refine ⟨update_agent a pd, ?_, ?_⟩
    · simp [update_agent_performance, ha, alookup_aupdate_self]
    · simp only [update_agent, hsc, Option.getD_none]
      ring
  · intro hacc
    refine ⟨update_agent a pd, ?_, ?_⟩
    · simp [update_agent_performance, ha, alookup_aupdate_self]
    · simp only [update_agent, hacc, Option.getD_none]
      norm_num
  · simp [update_agent_performance, ha, record_agent_performance, alookup_aupdate_self]

/-- Witness for C10: the defaults theorem applied to the witness agent with an
empty payload. -/
theorem missing_payload_keys_defaults_witness :
    alookup "wa1" witnessState.agents = some witnessAgent ∧
    ((∃ a2, alookup "wa1"
        (update_agent_performance witnessState "wa1" {} 0).agents = some a2 ∧
      a2.performance_score = witnessAgent.performance_score) ∧
    (∃ a2, alookup "wa1"
        (update_agent_performance witnessState "wa1" {} 0).agents = some a2 ∧
      a2.confidence_level = witnessAgent.confidence_level) ∧
    alookup "wa1"
        (update_agent_performance witnessState "wa1" {} 0).performance_history =
      some ((alookup "wa1" witnessState.performance_history).getD [] ++ [⟨0, {}⟩])) :=
  ⟨by simp [witnessState, alookup],
   by
    have h := missing_payload_keys_defaults witnessState "wa1" witnessAgent {} 0
      (by simp [witnessState, alookup])
    exact ⟨h.1 rfl, h.2.1 rfl, h.2.2⟩⟩

/-- One `update_agent` step keeps confidence in [0.1, 1] for EVERY payload:
the confidence branch of the code reads only the accuracy value, so no score,
however far out of range, can move confidence outside the clamp. -/
theorem update_agent_confidence_bounds (a : Agent) (pd : PerfData)
    (hc0 : 1/10 ≤ a.confidence_level) (hc1 : a.confidence_level ≤ 1) :
    1/10 ≤ (update_agent a pd).confidence_level ∧
    (update_agent a pd).confidence_level ≤ 1 := by
  constructor
  · simp only [update_agent]
    by_cases h1 : pd.accuracy.getD 0.5 > 0.8
    · rw [if_pos h1]
      refine le_min (by norm_num) ?_
      nlinarith [hc0]
    · rw [if_neg h1]
      by_cases h2 : pd.accuracy.getD 0.5 < 0.3
      · rw [if_pos h2]
        exact le_trans (by norm_num) (le_max_left _ _)
      · rw [if_neg h2]
        exact hc0
  · simp only [update_agent]
    by_cases h1 : pd.accuracy.getD 0.5 > 0.8
    · rw [if_pos h1]
      exact min_le_left _ _
    · rw [if_neg h1]
      by_cases h2 : pd.accuracy.getD 0.5 < 0.3
      · rw [if_pos h2]
        refine max_le (by norm_num) ?_
        nlinarith [hc1]
      · rw [if_neg h2]
        exact hc1

/-- One `update_agent` step preserves the learning rate and keeps confidence in
[0.1, 1] unconditionally; it keeps the performance score in [0.1, 1] provided
the payload score (when present) lies in [0.1, 1]. -/
theorem update_agent_bounds (a : Agent) (pd : PerfData)
    (hlr0 : 0 ≤ a.learning_rate) (hlr1 : a.learning_rate ≤ 1)
    (hc0 : 1/10 ≤ a.confidence_level) (hc1 : a.confidence_level ≤ 1)
    (hp0 : 1/10 ≤ a.performance_score) (hp1 : a.performance_score ≤ 1)
    (hs : ∀ s0, pd.score = some s0 → 1/10 ≤ s0 ∧ s0 ≤ 1) :
    (update_agent a pd).learning_rate = a.learning_rate ∧
    1/10 ≤ (update_agent a pd).confidence_level ∧
    (update_agent a pd).confidence_level ≤ 1 ∧
    1/10 ≤ (update_agent a pd).performance_score ∧
    (update_agent a pd).performance_score ≤ 1 := by
  have hns : 1/10 ≤ pd.score.getD a.performance_score ∧
      pd.score.getD a.performance_score ≤ 1 := by
    cases hpd : pd.score with
    | none => exact ⟨hp0, hp1⟩
    | some s0 => exact ⟨(hs s0 hpd).1, (hs s0 hpd).2⟩
  refine ⟨rfl, ?_, ?_, ?_, ?_⟩
  · simp only [update_agent]
    by_cases h1 : pd.accuracy.getD 0.5 > 0.8
    · rw [if_pos h1]
      refine le_min (by norm_num) ?_
      nlinarith [hc0]
    · rw [if_neg h1]
      by_cases h2 : pd.accuracy.getD 0.5 < 0.3
      · rw [if_pos h2]
        exact le_trans (by norm_num) (le_max_left _ _)
      · rw [if_neg h2]
        exact hc0
  · simp only [update_agent]
    by_cases h1 : pd.accuracy.getD 0.5 > 0.8
    · rw [if_pos h1]
      exact min_le_left _ _
    · rw [if_neg h1]
      by_cases h2 : pd.accuracy.getD 0.5 < 0.3
      · rw [if_pos h2]
        refine max_le (by norm_num) ?_
        nlinarith [hc1]
      · rw [if_neg h2]
        exact hc1
  · simp only [update_agent]
    have e1 : 0 ≤ (a.performance_score - 1/10) * (1 - a.learning_rate) :=
      mul_nonneg (by linarith) (by linarith)
    have e2 : 0 ≤ (pd.score.getD a.performance_score - 1/10) * a.learning_rate :=
      mul_nonneg (by linarith [hns.1]) hlr0
    nlinarith [e1, e2]
  · simp only [update_agent]
    have e1 : 0 ≤ (1 - a.performance_score) * (1 - a.learning_rate) :=
      mul_nonneg (by linarith) (by linarith)
    have e2 : 0 ≤ (1 - pd.score.getD a.performance_score) * a.learning_rate :=
      mul_nonneg (by linarith [hns.2]) hlr0
    nlinarith [e1, e2]

/-- C4 (amended): the accuracy rule is as claimed (multiply confidence by 1.05
above 0.8, by 0.95 below 0.3, unchanged in between, clamped to [0.1, 1.0]);
confidence always stays within [0.1, 1.0] under ANY sequence of recorded
outcomes, with no restriction whatsoever on the payloads; the performance
score, however, is not clamped by the code, so it stays within [0.1, 1.0] only
under the additional condition that every outcome score lies in [0.1, 1.0]
(see the counterexample for the unconditional statement). -/
theorem confidence_clamped_performance_conditional :
    (∀ (a : Agent) (pd : PerfData) (acc : ℚ), pd.accuracy = some acc →
      (0.8 < acc →
        (update_agent a pd).confidence_level = min 1 (a.confidence_level * 1.05)) ∧
      (acc < 0.3 →
        (update_agent a pd).confidence_level = max 0.1 (a.confidence_level * 0.95)) ∧
      (0.3 ≤ acc → acc ≤ 0.8 →
        (update_agent a pd).confidence_level = a.confidence_level)) ∧
    (∀ (a : Agent) (pds : List PerfData),
      1/10 ≤ a.confidence_level → a.confidence_level ≤ 1 →
      1/10 ≤ (pds.foldl update_agent a).confidence_level ∧
      (pds.foldl update_agent a).confidence_level ≤ 1) ∧
    (∀ (a : Agent) (pds : List PerfData),
      0 ≤ a.learning_rate → a.learning_rate ≤ 1 →
      1/10 ≤ a.confidence_level → a.confidence_level ≤ 1 →
      1/10 ≤ a.performance_score → a.performance_score ≤ 1 →
      (∀ pd ∈ pds, ∀ s0, pd.score = some s0 → 1/10 ≤ s0 ∧ s0 ≤ 1) →
      1/10 ≤ (pds.foldl update_agent a).confidence_level ∧
      (pds.foldl update_agent a).confidence_level ≤ 1 ∧
      1/10 ≤ (pds.foldl update_agent a).performance_score ∧
      (pds.foldl update_agent a).performance_score ≤ 1) := by
  refine ⟨?_, ?_, ?_⟩
  · intro a pd acc hacc
    refine ⟨?_, ?_, ?_⟩
    · intro h
      simp only [update_agent, hacc, Option.getD_some]
      rw [if_pos h]
    · intro h
      have hno : ¬ acc > 0.8 := by
        intro hgt
        have : (0.3 : ℚ) < 0.8 := by norm_num
        linarith
      simp only [update_agent, hacc, Option.getD_some]
      rw [if_neg hno, if_pos h]
    · intro h1 h2
      simp only [update_agent, hacc, Option.getD_some]
      rw [if_neg (not_lt.mpr h2), if_neg (not_lt.mpr h1)]
  · intro a pds
    induction pds generalizing a with
    | nil =>
      intro hc0 hc1
      exact ⟨hc0, hc1⟩
    | cons pd rest ih =>
      intro hc0 hc1
      have hstep := update_agent_confidence_bounds a pd hc0 hc1
      simp only [List.foldl_cons]
      exact ih (update_agent a pd) hstep.1 hstep.2
  · intro a pds
    induction pds generalizing a with
    | nil =>
      intro _ _ hc0 hc1 hp0 hp1 _
      exact ⟨hc0, hc1, hp0, hp1⟩
    | cons pd rest ih =>
      intro hlr0 hlr1 hc0 hc1 hp0 hp1 hpds
      have hstep := update_agent_bounds a pd hlr0 hlr1 hc0 hc1 hp0 hp1
        (fun s0 h0 => hpds pd (List.mem_cons_self _ _) s0 h0)
      simp only [List.foldl_cons]
      exact ih (update_agent a pd) (hstep.1 ▸ hlr0) (hstep.1 ▸ hlr1)
        hstep.2.1 hstep.2.2.1 hstep.2.2.2.1 hstep.2.2.2.2
        (fun pd2 h2 s0 h0 => hpds pd2 (List.mem_cons_of_mem _ h2) s0 h0)

/-- Counterexample for C4 as stated: the code never clamps the performance
score, so a single recorded outcome with score 100 pushes the witness agent's
performance score to 10.675, far outside [0.1, 1.0]. -/
theorem performance_score_unclamped_counterexample :
    ((alookup "wa1" (update_agent_performance witnessState "wa1"
        { score := some 100, accuracy := none } 0).agents).getD
      witnessAgent).performance_score = 427/40 ∧
    ¬ ((alookup "wa1" (update_agent_performance witnessState "wa1"
        { score := some 100, accuracy := none } 0).agents).getD
      witnessAgent).performance_score ≤ 1 := by
  have h : alookup "wa1" (update_agent_performance witnessState "wa1"
      { score := some 100, accuracy := none } 0).agents =
      some (update_agent witnessAgent { score := some 100, accuracy := none }) := by
    have ha : alookup "wa1" witnessState.agents = some witnessAgent := by
      simp [witnessState, alookup]
    simp [update_agent_performance, ha, alookup_aupdate_self]
  rw [h]
  constructor
  · norm_num [update_agent, witnessAgent]
  · norm_num [update_agent, witnessAgent]

/-- Witness for C4 (amended): the theorem applied to the witness agent — the
unconditional confidence part at a payload whose score 100 is far out of
range, and the conditional part at a single in-range outcome. -/
theorem confidence_clamped_performance_conditional_witness :
    (({ score := some (1/2), accuracy := some (9/10) } : PerfData).accuracy = some (9/10)) ∧
    ((0.8 < (9/10 : ℚ) →
      (update_agent witnessAgent { score := some (1/2), accuracy := some (9/10) }).confidence_level =
        min 1 (witnessAgent.confidence_level * 1.05)) ∧
     ((9/10 : ℚ) < 0.3 →
      (update_agent witnessAgent { score := some (1/2), accuracy := some (9/10) }).confidence_level =
        max 0.1 (witnessAgent.confidence_level * 0.95)) ∧
     (0.3 ≤ (9/10 : ℚ) → (9/10 : ℚ) ≤ 0.8 →
      (update_agent witnessAgent { score := some (1/2), accuracy := some (9/10) }).confidence_level =
        witnessAgent.confidence_level)) ∧
    (1/10 ≤ ([({ score := some 100, accuracy := some (9/10) } : PerfData)].foldl
        update_agent witnessAgent).confidence_level ∧
      ([({ score := some 100, accuracy := some (9/10) } : PerfData)].foldl
        update_agent witnessAgent).confidence_level ≤ 1) ∧
    (1/10 ≤ ([({ score := some (1/2), accuracy := some (9/10) } : PerfData)].foldl
        update_agent witnessAgent).confidence_level ∧
      ([({ score := some (1/2), accuracy := some (9/10) } : PerfData)].foldl
        update_agent witnessAgent).confidence_level ≤ 1 ∧
      1/10 ≤ ([({ score := some (1/2), accuracy := some (9/10) } : PerfData)].foldl
        update_agent witnessAgent).performance_score ∧
      ([({ score := some (1/2), accuracy := some (9/10) } : PerfData)].foldl
        update_agent witnessAgent).performance_score ≤ 1) :=
  ⟨rfl,
   confidence_clamped_performance_conditional.1 witnessAgent
     { score := some (1/2), accuracy := some (9/10) } (9/10) rfl,
   confidence_clamped_performance_conditional.2.1 witnessAgent
     [{ score := some 100, accuracy := some (9/10) }]
     (by norm_num [witnessAgent]) (by norm_num [witnessAgent]),
   confidence_clamped_performance_conditional.2.2 witnessAgent
     [{ score := some (1/2), accuracy := some (9/10) }]
     (by norm_num [witnessAgent]) (by norm_num [witnessAgent])
     (by norm_num [witnessAgent]) (by norm_num [witnessAgent])
     (by norm_num [witnessAgent]) (by norm_num [witnessAgent])
     (by
       intro pd hpd s0 h0
       simp only [List.mem_cons, List.not_mem_nil, or_false] at hpd
       subst hpd
       simp only [Option.some.injEq] at h0
       subst h0
       norm_num)⟩

/-- C6: the elicited decision confidence equals the agent's confidence level,
multiplied by 1.2 when some expertise tag occurs in the context's market type
(the code's substring-membership test), multiplied by `1 - risk_aversion*0.2`
when the agent carries a risk_aversion trait and context volatility exceeds
0.3, and finally clamped to [0.1, 1.0]; in particular the result always lies
in [0.1, 1.0]. -/
theorem agent_confidence_formula (a : Agent) (context : Context) :
    calculate_agent_confidence a context =
      min 1 (max 0.1 (a.confidence_level *
        (if a.expertise_areas.any
            (fun exp => strIn exp (context.market_type.getD "general")) then 1.2 else 1) *
        (if (alookup "risk_aversion" a.personality_traits).isSome ∧
            context.volatility.getD 0.1 > 0.3
         then 1 - ((alookup "risk_aversion" a.personality_traits).getD 0) * 0.2
         else 1))) ∧
    0.1 ≤ calculate_agent_confidence a context ∧
    calculate_agent_confidence a context ≤ 1 := by
  refine ⟨?_, ?_, ?_⟩
  · simp only [calculate_agent_confidence]
    cases hra : alookup "risk_aversion" a.personality_traits with
    | none =>
      by_cases he : a.expertise_areas.any
          (fun exp => strIn exp (context.market_type.getD "general"))
      · simp [he]
      · simp [he]
    | some ra =>
      by_cases hv : context.volatility.getD 0.1 > 0.3
      · by_cases he : a.expertise_areas.any
            (fun exp => strIn exp (context.market_type.getD "general"))
        · simp [he, hv]
        · simp [he, hv]
      · by_cases he : a.expertise_areas.any
            (fun exp => strIn exp (context.market_type.getD "general"))
        · simp [he, hv]
        · simp [he, hv]
  · simp only [calculate_agent_confidence]
    exact le_min (by norm_num) (le_max_left _ _)
  · simp only [calculate_agent_confidence]
    exact min_le_left _ _

/-- Counterexample for C7 as stated: `get_agent_performance` never fails; an
unknown agent id ("ghost", absent from every history) returns the zero-valued
summary, indistinguishable from a known agent with no records. -/
theorem get_performance_unknown_id_counterexample :
    get_agent_performance [] "ghost" 100 7 = .noRecords ∧
    get_agent_performance [("known", [])] "ghost" 100 7 =
      get_agent_performance [("known", [])] "known" 100 7 := by
  constructor
  · simp [get_agent_performance, alookup]
  · simp [get_agent_performance, alookup]

/-- C7 (amended): `get_agent_performance` is total and never fails: an unknown
agent id returns the zero-valued summary, as does a known agent with no
records inside the window; when the window holds records the summary counts
them and its trend flag is "improving" exactly when at least two records exist
in the window and the last windowed score exceeds the first. -/
theorem get_performance_zero_summary_and_trend
    (hist : List (String × List PerformanceRecord)) (agent_id : String) (now days : ℚ) :
    (alookup agent_id hist = none →
      get_agent_performance hist agent_id now days = .noRecords) ∧
    (∀ records, alookup agent_id hist = some records →
      records.filter (fun r => r.timestamp > now - days) = [] →
      get_agent_performance hist agent_id now days = .noRecords) ∧
    (∀ records, alookup agent_id hist = some records →
      ∀ rec0 recs, records.filter (fun r => r.timestamp > now - days) = rec0 :: recs →
      ∃ avg latest trend,
        get_agent_performance hist agent_id now days =
          .summary (rec0 :: recs).length avg latest trend ∧
        (trend = "improving" ↔
          2 ≤ (rec0 :: recs).length ∧
          ((rec0 :: recs).map (fun r => r.data.score.getD 0.5)).headD 0 <
            ((rec0 :: recs).map (fun r => r.data.score.getD 0.5)).getLastD 0)) := by
  refine ⟨?_, ?_, ?_⟩
  · intro h
    simp [get_agent_performance, h]
  · intro records ha hfil
    simp [get_agent_performance, ha, hfil]
  · intro records ha rec0 recs hfil
    refine ⟨((rec0 :: recs).map (fun r => r.data.score.getD 0.5)).sum /
        ((((rec0 :: recs).map (fun r => r.data.score.getD 0.5)).length : ℚ)),
      ((rec0 :: recs).map (fun r => r.data.score.getD 0.5)).getLastD 0,
      if 1 < ((rec0 :: recs).map (fun r => r.data.score.getD 0.5)).length ∧
          ((rec0 :: recs).map (fun r => r.data.score.getD 0.5)).headD 0 <
            ((rec0 :: recs).map (fun r => r.data.score.getD 0.5)).getLastD 0
        then "improving" else "stable", ?_, ?_⟩
    · simp [get_agent_performance, ha, hfil]
    · by_cases hcond :
        1 < ((rec0 :: recs).map (fun r => r.data.score.getD 0.5)).length ∧
          ((rec0 :: recs).map (fun r => r.data.score.getD 0.5)).headD 0 <
            ((rec0 :: recs).map (fun r => r.data.score.getD 0.5)).getLastD 0
      · rw [if_pos hcond]
        simp only [List.length_map, List.length_cons] at hcond ⊢
        constructor
        · intro _
          exact ⟨by omega, hcond.2⟩
        · intro _
          trivial
      · rw [if_neg hcond]
        simp only [List.length_map, List.length_cons] at hcond ⊢
        constructor
        · intro h
          exact absurd h (by simp)
        · intro hc
          exact absurd ⟨by omega, hc.2⟩ hcond

/-- Concrete performance records for instantiating the summary theorems. -/
def witnessRecordA : PerformanceRecord :=
  { timestamp := 99, data := { score := some (1/2), accuracy := none } }

/-- Second concrete performance record, newer and with a higher score. -/
def witnessRecordB : PerformanceRecord :=
  { timestamp := 100, data := { score := some (3/4), accuracy := none } }

/-- Concrete performance history holding the two records for agent id wa1. -/
def witnessHist : List (String × List PerformanceRecord) :=
  [("wa1", [witnessRecordA, witnessRecordB])]

/-- Witness for C7 (amended): the three branches of the summary theorem applied
at concrete inputs — an unknown id, a known id with no records, and a known id
with two windowed records of increasing score. -/
theorem get_performance_zero_summary_and_trend_witness :
    (get_agent_performance [] "ghost" 100 7 = .noRecords) ∧
    (get_agent_performance [("known", [])] "known" 100 7 = .noRecords) ∧
    (∃ avg latest trend,
      get_agent_performance witnessHist "wa1" 100 7 =
        .summary ([witnessRecordA, witnessRecordB]).length avg latest trend ∧
      (trend = "improving" ↔
        2 ≤ ([witnessRecordA, witnessRecordB]).length ∧
        (([witnessRecordA, witnessRecordB]).map
          (fun r => r.data.score.getD 0.5)).headD 0 <
          (([witnessRecordA, witnessRecordB]).map
            (fun r => r.data.score.getD 0.5)).getLastD 0)) :=
  ⟨(get_performance_zero_summary_and_trend [] "ghost" 100 7).1 rfl,
   (get_performance_zero_summary_and_trend [("known", [])] "known" 100 7).2.1 []
     (by simp [alookup]) (by simp),
   (get_performance_zero_summary_and_trend witnessHist "wa1" 100 7).2.2
     [witnessRecordA, witnessRecordB] (by simp [witnessHist, alookup])
     witnessRecordA [witnessRecordB]
     (by
       simp only [List.filter_cons, List.filter_nil]
       norm_num [witnessRecordA, witnessRecordB])⟩

/-- Counterexample for C8 as stated: registering a second agent under an
existing display name does not fail; both Agent records remain registered, so
two registered agents share the display name "Bob", and the registry's name
mapping is silently repointed at the second id. -/
theorem duplicate_name_counterexample :
    ((create_agent ((create_agent {} "id1" "Bob" .director .market_intelligence
          [] [] (4/5) (1/10)).1)
        "id2" "Bob" .senior .market_intelligence [] [] (4/5) (1/10)).1.agents.map
      (fun p => p.2.name)) = ["Bob", "Bob"] ∧
    ((create_agent ((create_agent {} "id1" "Bob" .director .market_intelligence
          [] [] (4/5) (1/10)).1)
        "id2" "Bob" .senior .market_intelligence [] [] (4/5) (1/10)).1.agent_registry)
      = [("Bob", "id2")] := by
  constructor
  · simp [create_agent, aupdate]
  · simp [create_agent, aupdate]

/-- C8 (amended): registration never fails. `_create_agent` stores the new
agent under its id, points the registry's name mapping at the new id (silently
overwriting any previous holder of that name), sets the vote weight from the
role table, and leaves every other id's agent entry unchanged — so an agent
previously registered under the same display name remains, and two registered
agents can share a display name. -/
theorem create_agent_overwrites_name (st : ManagerState) (agent_id name : String)
    (role : AgentRole) (department : DepartmentType) (personality : List (String × ℚ))
    (expertise : List String) (base_confidence learning_rate : ℚ) :
    (create_agent st agent_id name role department personality expertise
        base_confidence learning_rate).2.name = name ∧
    (create_agent st agent_id name role department personality expertise
        base_confidence learning_rate).2.vote_weight = vote_weights role ∧
    alookup agent_id (create_agent st agent_id name role department personality expertise
        base_confidence learning_rate).1.agents =
      some (create_agent st agent_id name role department personality expertise
        base_confidence learning_rate).2 ∧
    alookup name (create_agent st agent_id name role department personality expertise
        base_confidence learning_rate).1.agent_registry = some agent_id ∧
    (∀ id2, id2 ≠ agent_id →
      alookup id2 (create_agent st agent_id name role department personality expertise
        base_confidence learning_rate).1.agents = alookup id2 st.agents) := by
  refine ⟨rfl, rfl, ?_, ?_, ?_⟩
  · simp [create_agent, alookup_aupdate_self]
  · simp [create_agent, alookup_aupdate_self]
  · intro id2 h2
    simp [create_agent, alookup_aupdate_ne _ _ _ _ h2]

/-- Witness for C8 (amended): registration of "Bob" into the empty state, with
the preservation conjunct instantiated at the distinct id "other". -/
theorem create_agent_overwrites_name_witness :
    (create_agent {} "id1" "Bob" .director .market_intelligence [] []
        (4/5) (1/10)).2.name = "Bob" ∧
    (create_agent {} "id1" "Bob" .director .market_intelligence [] []
        (4/5) (1/10)).2.vote_weight = vote_weights .director ∧
    alookup "id1" (create_agent {} "id1" "Bob" .director .market_intelligence [] []
        (4/5) (1/10)).1.agents =
      some (create_agent {} "id1" "Bob" .director .market_intelligence [] []
        (4/5) (1/10)).2 ∧
    alookup "Bob" (create_agent {} "id1" "Bob" .director .market_intelligence [] []
        (4/5) (1/10)).1.agent_registry = some "id1" ∧
    alookup "other" (create_agent {} "id1" "Bob" .director .market_intelligence [] []
        (4/5) (1/10)).1.agents = alookup "other" ({} : ManagerState).agents := by
  have h := create_agent_overwrites_name {} "id1" "Bob" .director .market_intelligence
    [] [] (4/5) (1/10)
  exact ⟨h.1, h.2.1, h.2.2.1, h.2.2.2.1, h.2.2.2.2 "other" (by decide)⟩

/-- Session with consensus strength 0.55 used for the override-review claim. -/
def overrideScenarioSession : VotingSession :=
  { winning_recommendation := "BUY"
    consensus_strength := 11/20
    vote_distribution := [("BUY", 11/20), ("SELL", 9/20)]
    total_votes := 2
    participating_agents := ["a1", "a2"] }

/-- Counterexample for C5 as stated: with consensus strength 0.55 (below the
0.6 threshold) the route still approves execution whenever the CEO strategic
confidence is 0.7, and when it does not approve (strategic confidence 0.5) the
final recommendation is still the session winner "BUY", never a policy
fallback. -/
theorem route_override_counterexample :
    (coordinate_decision_route overrideScenarioSession ⟨7/10⟩).execution_approved = true ∧
    (coordinate_decision_route overrideScenarioSession ⟨1/2⟩).execution_approved = false ∧
    (coordinate_decision_route overrideScenarioSession ⟨1/2⟩).final_recommendation
      = "BUY" := by
  refine ⟨?_, ?_, rfl⟩
  · norm_num [coordinate_decision_route, overrideScenarioSession]
  · norm_num [coordinate_decision_route, overrideScenarioSession]

/-- C5 (amended): the route's execution approval depends only on the CEO
strategic confidence exceeding 0.6 — the session's consensus strength is not
consulted — and the final recommendation is always the session's winning
recommendation, also when approval is false; no fallback is substituted. -/
theorem route_final_recommendation_behavior (s : VotingSession) (c : CEODecision) :
    (coordinate_decision_route s c).final_recommendation = s.winning_recommendation ∧
    ((coordinate_decision_route s c).execution_approved = true ↔ c.confidence > 0.6) := by
  constructor
  · rfl
  · by_cases h : c.confidence > 0.6
    · simp [coordinate_decision_route, h]
    · simp [coordinate_decision_route, h]

end ManusTradeAI
